import Mathlib

/-!
Verification of the X2Discord pipeline (`src/script.py`).

This file gives a shallow embedding of the script's logic:

* `build_twitter_query` mirrors the query builder (script.py lines 51-70);
* the seen-set store (`load_sent_tweet_ids` / `save_sent_tweet_id`,
  lines 32-49) is modelled on an explicit durable-file contents value of
  type `List Char`;
* `send_to_discord` (lines 72-136) is modelled by the embed it builds;
  the actual HTTP delivery is represented by an event trace together with
  an oracle that decides whether each delivery attempt succeeds, since
  every delivery failure is caught and logged inside the sender;
* the per-pair filter-and-dispatch loop of `main` (lines 174-228) is
  modelled as a fold over the fetched tweets, threading the in-memory
  seen set, the durable file contents, and the event trace.

Machine-level details that the claims do not touch (logging, the HTTP
client, the Tweepy client object, and the wall-clock timestamp stored in
each embed) are not modelled.
-/

set_option maxHeartbeats 1000000

namespace X2Discord

/-! ### Query builder (script.py lines 51-70) -/

/-- The punctuation set tested by line 59 of the script. -/
def specialChars : List Char :=
  ['#', '@', '$', ':', '(', ')', '[', ']', '\x7b', '\x7d', '"', '\'']

/-- Per-keyword formatting from lines 58-62: quote the keyword when it
contains a space character or any character of `specialChars`. -/
def formatKeyword (k : String) : String :=
  if k.data.contains ' ' || specialChars.any (fun c => k.data.contains c) then
    "\"" ++ k ++ "\""
  else
    k

/-- `build_twitter_query` from script.py lines 51-70.  An unrecognized
logic value takes the same `" OR "` join as `"OR"` (the script only adds
a warning log line in that case). -/
def build_twitter_query (keywords : List String) (logic : String) : String :=
  if keywords = [] then ""
  else
    let formatted := keywords.map formatKeyword
    if logic = "AND" then String.intercalate " " formatted
    else String.intercalate " OR " formatted

/-- Spec-side keyword formatting, written from the spec's wording with
"whitespace" narrowed to "a space character" (the amendment forced by the
counterexample below): quote exactly the keywords containing a space
character or a character of the fixed punctuation set. -/
def specFormatKeyword (k : String) : String :=
  if k.data.any (fun c => c = ' ' || specialChars.contains c) then
    "\"" ++ k ++ "\""
  else
    k

/-- Spec-side query builder: empty keyword sequence yields the empty
string, otherwise the formatted keywords joined by `sep`. -/
def specQuery (keywords : List String) (sep : String) : String :=
  if keywords = [] then "" else String.intercalate sep (keywords.map specFormatKeyword)

/-! ### Seen-set store (script.py lines 32-49)

The durable record is a plain-text file, modelled by its contents as a
`List Char`.  `load_sent_tweet_ids` iterates the lines of the file;
Python's file iteration yields each line including its terminating
newline, which `strip()` removes, so splitting the contents at newline
characters and stripping each piece yields the same set of strings. -/

/-- Split file contents at newline characters (the final piece is the
text after the last newline, possibly empty). -/
def splitLines : List Char → List (List Char)
  | [] => [[]]
  | c :: cs =>
    if c = '\n' then [] :: splitLines cs
    else
      match splitLines cs with
      | [] => [[c]]
      | l :: ls => (c :: l) :: ls

/-- Python `str.strip()`: remove leading and trailing whitespace. -/
def stripChars (l : List Char) : List Char :=
  ((l.dropWhile Char.isWhitespace).reverse.dropWhile Char.isWhitespace).reverse

/-- `load_sent_tweet_ids` from script.py lines 32-41: the set of stripped
non-blank lines of the file.  (A missing file and a read failure both
yield the empty set in the script; they correspond to empty contents.) -/
def load_sent_tweet_ids (file : List Char) : Finset String :=
  (((splitLines file).map (fun l => String.mk (stripChars l))).filter
    (fun s => s ≠ "")).toFinset

/-- `save_sent_tweet_id` from script.py lines 43-49: append the
identifier plus a newline to the durable record. -/
def save_sent_tweet_id (file : List Char) (id : String) : List Char :=
  file ++ id.data ++ ['\n']

/-- A durable record written by the script alone: it is empty or ends
with the newline that `save_sent_tweet_id` always appends. -/
def wellFormedFile (f : List Char) : Prop :=
  f = [] ∨ f.getLast? = some '\n'

instance (f : List Char) : Decidable (wellFormedFile f) := by
  unfold wellFormedFile; infer_instance

/-- An identifier in the form the script actually stores: the `str()`
image of a numeric tweet id is non-empty and has no whitespace. -/
def TokenStr (s : String) : Prop :=
  s ≠ "" ∧ ∀ c ∈ s.data, c.isWhitespace = false

instance (s : String) : Decidable (TokenStr s) := by
  unfold TokenStr; infer_instance

lemma splitLines_ne_nil (f : List Char) : splitLines f ≠ [] := by
  cases f with
  | nil => simp [splitLines]
  | cons c cs =>
    simp only [splitLines]
    split
    · simp
    · split <;> simp

lemma splitLines_newline (g : List Char) : splitLines ('\n' :: g) = [] :: splitLines g := by
  simp [splitLines]

lemma splitLines_other {c : Char} (g : List Char) {a : List Char} {s : List (List Char)}
    (hc : c ≠ '\n') (hs : splitLines g = a :: s) :
    splitLines (c :: g) = (c :: a) :: s := by
  simp [splitLines, hc, hs]

lemma splitLines_two_le_length (f : List Char) (h : '\n' ∈ f) :
    2 ≤ (splitLines f).length := by
  induction f with
  | nil => cases h
  | cons c g ih =>
    by_cases hc : c = '\n'
    · subst hc
      have h2 : 1 ≤ (splitLines g).length := List.length_pos.mpr (splitLines_ne_nil g)
      rw [splitLines_newline, List.length_cons]
      omega
    · have h' : '\n' ∈ g := by
        rcases List.mem_cons.mp h with h | h
        · exact absurd h.symm hc
        · exact h
      cases hs : splitLines g with
      | nil => exact absurd hs (splitLines_ne_nil g)
      | cons a t =>
        rw [splitLines_other g hc hs]
        have := ih h'
        rw [hs] at this
        simpa using this

lemma mem_of_getLast?_eq {α : Type} {l : List α} {a : α}
    (h : l.getLast? = some a) : a ∈ l := by
  induction l with
  | nil => simp at h
  | cons b t ih =>
    cases t with
    | nil =>
      simp only [List.getLast?_singleton, Option.some.injEq] at h
      simp [h]
    | cons c u =>
      rw [List.getLast?_cons_cons] at h
      exact List.mem_cons_of_mem b (ih h)

lemma splitLines_wf_last (f : List Char) (hwf : wellFormedFile f) :
    splitLines f = (splitLines f).dropLast ++ [[]] := by
  induction f with
  | nil => rfl
  | cons c g ih =>
    rcases hwf with h | h
    · cases h
    · by_cases hg : g = []
      · subst hg
        have hc : c = '\n' := by simpa using h
        subst hc; rfl
      · have hlast : g.getLast? = some '\n' := by
          obtain ⟨b, t, rfl⟩ := List.exists_cons_of_ne_nil hg
          rwa [List.getLast?_cons_cons] at h
        have hwf' : wellFormedFile g := Or.inr hlast
        have ih' := ih hwf'
        have hlen := splitLines_two_le_length g (mem_of_getLast?_eq hlast)
        cases hs : splitLines g with
        | nil => exact absurd hs (splitLines_ne_nil g)
        | cons a s =>
          rw [hs] at ih' hlen
          obtain ⟨s0, s1, rfl⟩ : ∃ x u, s = x :: u := by
            cases s with
            | nil => simp at hlen
            | cons x u => exact ⟨x, u, rfl⟩
          rw [List.dropLast_cons₂, List.cons_append] at ih'
          have htail : s0 :: s1 = (s0 :: s1).dropLast ++ [[]] := by
            injection ih'
          by_cases hc : c = '\n'
          · subst hc
            rw [splitLines_newline, hs, List.dropLast_cons₂, List.dropLast_cons₂,
              List.cons_append, List.cons_append, ← htail]
          · rw [splitLines_other g hc hs, List.dropLast_cons₂, List.cons_append, ← htail]

lemma splitLines_wf_append (f g : List Char) (hwf : wellFormedFile f) :
    splitLines (f ++ g) = (splitLines f).dropLast ++ splitLines g := by
  induction f with
  | nil => simp [splitLines]
  | cons c f' ih =>
    rcases hwf with h | h
    · cases h
    · by_cases hf : f' = []
      · subst hf
        have hc : c = '\n' := by simpa using h
        subst hc
        have h1 : splitLines ['\n'] = [[], []] := by rw [splitLines_newline]; rfl
        show splitLines ('\n' :: g) = (splitLines ['\n']).dropLast ++ splitLines g
        rw [splitLines_newline, h1]
        rfl
      · have hlast : f'.getLast? = some '\n' := by
          obtain ⟨b, t, rfl⟩ := List.exists_cons_of_ne_nil hf
          rwa [List.getLast?_cons_cons] at h
        have hwf' : wellFormedFile f' := Or.inr hlast
        have ih' := ih hwf'
        have hlen := splitLines_two_le_length f' (mem_of_getLast?_eq hlast)
        cases hs : splitLines f' with
        | nil => exact absurd hs (splitLines_ne_nil f')
        | cons a s =>
          rw [hs] at ih' hlen
          obtain ⟨s0, s1, rfl⟩ : ∃ x u, s = x :: u := by
            cases s with
            | nil => simp at hlen
            | cons x u => exact ⟨x, u, rfl⟩
          rw [List.dropLast_cons₂, List.cons_append] at ih'
          by_cases hc : c = '\n'
          · subst hc
            rw [List.cons_append, splitLines_newline, ih', splitLines_newline, hs]
            simp [List.dropLast_cons₂]
          · rw [List.cons_append, splitLines_other (f' ++ g) hc ih',
              splitLines_other f' hc hs]
            simp [List.dropLast_cons₂]

lemma splitLines_token_line (l : List Char) (h : ∀ c ∈ l, c ≠ '\n') :
    splitLines (l ++ ['\n']) = [l, []] := by
  induction l with
  | nil => rfl
  | cons c t ih =>
    have hc : c ≠ '\n' := h c (List.mem_cons_self c t)
    have ih' := ih (fun d hd => h d (List.mem_cons_of_mem c hd))
    rw [List.cons_append, splitLines_other (t ++ ['\n']) hc ih']

lemma dropWhile_eq_self_of_false {α : Type} (p : α → Bool) (l : List α)
    (h : ∀ a ∈ l, p a = false) : l.dropWhile p = l := by
  cases l with
  | nil => rfl
  | cons a t => simp [List.dropWhile_cons, h a (List.mem_cons_self a t)]

lemma stripChars_eq_self (l : List Char) (h : ∀ c ∈ l, c.isWhitespace = false) :
    stripChars l = l := by
  unfold stripChars
  rw [dropWhile_eq_self_of_false _ _ h,
    dropWhile_eq_self_of_false _ _ (fun c hc => h c (List.mem_reverse.mp hc)),
    List.reverse_reverse]

lemma wellFormedFile_save (f : List Char) (id : String) :
    wellFormedFile (save_sent_tweet_id f id) := by
  right
  unfold save_sent_tweet_id
  rw [List.getLast?_concat]

lemma load_append_token (f : List Char) (id : String)
    (hwf : wellFormedFile f) (hid : TokenStr id) :
    load_sent_tweet_ids (save_sent_tweet_id f id) = insert id (load_sent_tweet_ids f) := by
  obtain ⟨hne, hws⟩ := hid
  have hnl : ∀ c ∈ id.data, c ≠ '\n' := by
    intro c hc heq
    have := hws c hc
    rw [heq] at this
    simp [Char.isWhitespace] at this
  have h1 : splitLines (save_sent_tweet_id f id) =
      (splitLines f).dropLast ++ [id.data, []] := by
    unfold save_sent_tweet_id
    rw [List.append_assoc, splitLines_wf_append f _ hwf, splitLines_token_line _ hnl]
  have h2 := splitLines_wf_last f hwf
  unfold load_sent_tweet_ids
  rw [h1]
  conv_rhs => rw [h2]
  rw [List.map_append, List.filter_append, List.toFinset_append,
    List.map_append, List.filter_append, List.toFinset_append]
  have hx : String.mk (stripChars id.data) = id := by
    rw [stripChars_eq_self id.data hws]
  have hy : String.mk (stripChars ([] : List Char)) = "" := rfl
  have e1 : ((([id.data, []] : List (List Char)).map
      (fun l => String.mk (stripChars l))).filter (fun s => s ≠ "")).toFinset
      = ({id} : Finset String) := by
    simp [hx, hy, List.filter_cons, hne]
  have e2 : ((([[]] : List (List Char)).map
      (fun l => String.mk (stripChars l))).filter (fun s => s ≠ "")).toFinset
      = (∅ : Finset String) := by
    rfl
  rw [e1, e2, Finset.union_empty, Finset.union_comm, ← Finset.insert_eq]

lemma load_foldl_save (ids : List String) (f : List Char)
    (hwf : wellFormedFile f) (htok : ∀ id ∈ ids, TokenStr id) :
    load_sent_tweet_ids (ids.foldl save_sent_tweet_id f) =
      load_sent_tweet_ids f ∪ ids.toFinset ∧
    wellFormedFile (ids.foldl save_sent_tweet_id f) := by
  induction ids generalizing f with
  | nil => simpa using hwf
  | cons a t ih =>
    have h1 := load_append_token f a hwf (htok a (List.mem_cons_self a t))
    obtain ⟨h2, h3⟩ := ih (save_sent_tweet_id f a) (wellFormedFile_save f a)
      (fun id hid => htok id (List.mem_cons_of_mem a hid))
    refine ⟨?_, h3⟩
    rw [List.foldl_cons, h2, h1, List.toFinset_cons, Finset.insert_union,
      Finset.union_insert]

/-! ### Claim C7: seen-set durability round-trip -/

/-- C7 (counterexample): the claim quantifies over every finite set of
identifiers, but recording the identifier `""` (one identifier, so N = 1)
and reloading yields the empty set, not the one-element set containing
`""`: blank lines are dropped by `load_sent_tweet_ids`. -/
theorem c7_roundtrip_counterexample :
    load_sent_tweet_ids (save_sent_tweet_id [] "") = (∅ : Finset String) ∧
    (∅ : Finset String) ≠ ({""} : Finset String) := by
  constructor
  · rfl
  · decide

/-- C7 (amended): restricted to identifiers as the script actually stores
them — non-empty strings without whitespace characters (the `str()` image
of a numeric tweet id) — recording each identifier of a list once into an
empty record and reloading yields exactly the set of those identifiers,
independent of the recording order. -/
theorem c7_roundtrip_amended (ids : List String)
    (h : ∀ id ∈ ids, TokenStr id) :
    load_sent_tweet_ids (ids.foldl save_sent_tweet_id []) = ids.toFinset := by
  have h1 := (load_foldl_save ids [] (Or.inl rfl) h).1
  rw [h1]
  have h2 : load_sent_tweet_ids [] = ∅ := rfl
  rw [h2, Finset.empty_union]

/-- C7 witness: concrete instance of the amended round-trip. -/
theorem c7_roundtrip_witness :
    (∀ id ∈ ["123", "45", "6789"], TokenStr id) ∧
    load_sent_tweet_ids ((["123", "45", "6789"] : List String).foldl save_sent_tweet_id [])
      = (["123", "45", "6789"] : List String).toFinset :=
  ⟨by decide, c7_roundtrip_amended ["123", "45", "6789"] (by decide)⟩

/-! ### Claim C1: query construction -/

lemma formatKeyword_eq_spec (k : String) : formatKeyword k = specFormatKeyword k := by
  have h : (k.data.contains ' ' || specialChars.any (fun c => k.data.contains c))
      = (k.data.any (fun c => c = ' ' || specialChars.contains c)) := by
    rw [Bool.eq_iff_iff]
    simp only [Bool.or_eq_true, List.contains_iff_exists_mem_beq, List.any_eq_true,
      decide_eq_true_eq, beq_iff_eq, exists_eq_right, exists_eq_right']
    constructor
    · rintro (h | ⟨c, hc, hck⟩)
      · exact ⟨' ', h, Or.inl rfl⟩
      · exact ⟨c, hck, Or.inr hc⟩
    · rintro ⟨c, hck, (rfl | hc)⟩
      · exact Or.inl hck
      · exact Or.inr ⟨c, hc, hck⟩
  rw [formatKeyword, specFormatKeyword, h]

/-- C1 (counterexample): the claim says every keyword containing
whitespace is wrapped in double quotes, but the script only tests the
space character (line 59).  The keyword `"a\tb"` contains the whitespace
character `'\t'`, yet `build_twitter_query` passes it through unquoted. -/
theorem c1_query_quoting_counterexample :
    build_twitter_query ["a\tb"] "AND" = "a\tb" ∧
    ('\t' ∈ "a\tb".data ∧ ('\t').isWhitespace = true) ∧
    build_twitter_query ["a\tb"] "AND" ≠ "\"a\tb\"" := by
  refine ⟨by decide, ⟨by decide, by decide⟩, by decide⟩

/-- C1 (amended): with "whitespace" narrowed to "a space character",
`build_twitter_query` wraps in double quotes exactly those keywords
containing a space character or a character of the fixed punctuation set,
joins the formatted keywords with a single space under AND logic and with
`" OR "` under OR logic, returns the empty string on an empty sequence,
and satisfies the two concrete examples of the claim. -/
theorem c1_query_quoting_amended :
    (∀ keywords : List String,
        build_twitter_query keywords "AND" = specQuery keywords " " ∧
        build_twitter_query keywords "OR" = specQuery keywords " OR ") ∧
    build_twitter_query ["foo bar"] "AND" = "\"foo bar\"" ∧
    build_twitter_query ["#tag", "plain"] "OR" = "\"#tag\" OR plain" ∧
    (∀ logic : String, build_twitter_query [] logic = "") := by
  refine ⟨?_, by decide, by decide, fun logic => by simp [build_twitter_query]⟩
  intro keywords
  constructor <;>
    simp [build_twitter_query, specQuery, formatKeyword_eq_spec, (funext formatKeyword_eq_spec :
      formatKeyword = specFormatKeyword)]

/-! ### Notification sender (script.py lines 72-151)

`send_to_discord` builds one structured "embed" and posts it; all
delivery failures are caught inside the function.  The embed is modelled
as a record; the `timestamp` field of the Python embed is the wall-clock
send time and is not modelled.  Delivery itself is modelled later by the
event trace of the pipeline. -/

structure EmbedAuthor where
  name : String
  url : String
deriving DecidableEq, Repr

structure Embed where
  title : String
  description : String
  url : Option String
  color : Nat
  author : Option EmbedAuthor
  footerText : String
  imageUrl : Option String
deriving DecidableEq, Repr

/-- The count rendering in the normal-mode footer (line 103):
`str(n)` for a present count, `"N/A"` for an absent one. -/
def countText : Option Nat → String
  | some n => toString n
  | none => "N/A"

/-- The embed built by `send_to_discord` (script.py lines 76-118).
`tweet_text` plays the role of the error message when
`is_error_notification` is true. -/
def send_to_discord (tweet_author_name tweet_author_username tweet_text tweet_url : String)
    (retweet_count like_count : Option Nat) (media_urls : List String)
    (is_error_notification : Bool) : Embed :=
  if is_error_notification then
    { title := "❌ Bot Error Notification ❌"
      description := tweet_text
      url := none
      color := 16711680
      author := none
      footerText := "Twitter-Discord Bot Error"
      imageUrl := none }
  else
    let text2 := tweet_text ++ "\n\n🔗 [View on Twitter](" ++ tweet_url ++ ")"
    let base : Embed :=
      { title := "New Tweet from @" ++ tweet_author_username
        description := text2
        url := some tweet_url
        color := 5814783
        author := some ⟨tweet_author_name, "https://twitter.com/" ++ tweet_author_username⟩
        footerText := "Likes: " ++ countText like_count ++ " | Retweets: " ++
          countText retweet_count ++ " | Twitter Bot"
        imageUrl := none }
    match media_urls with
    | [] => base
    | m0 :: rest =>
      if rest = [] then { base with imageUrl := some m0 }
      else
        { base with
            imageUrl := some m0
            description := base.description ++ "\n\n**Additional Media:**\n" ++
              String.intercalate "\n" rest }

/-- `send_error_notification` (script.py lines 138-151): when a
destination is configured (present and non-empty, Python truthiness) it
delegates to `send_to_discord` in error mode with placeholder author
arguments; otherwise it only logs, modelled by `none`. -/
def send_error_notification (error_message : String)
    (notifications_webhook_url : Option String) : Option (String × Embed) :=
  match notifications_webhook_url with
  | some url =>
    if url = "" then none
    else some (url, send_to_discord "Twitter Bot" "bot_error" error_message ""
      none none [] true)
  | none => none

/-! ### Claim C6: error-mode message shape -/

/-- C6 (counterexample): the claim says the structured message built in
error mode uses a fixed placeholder author identity, but the error-mode
embed contains no author block at all: its `author` field is absent, and
the embed is identical whatever author arguments are supplied (the
placeholders passed by `send_error_notification` are ignored). -/
theorem c6_error_embed_counterexample :
    (send_to_discord "Twitter Bot" "bot_error" "boom" "" none none [] true).author = none ∧
    send_to_discord "Alice" "alice123" "boom" "" none none [] true =
      send_to_discord "Twitter Bot" "bot_error" "boom" "" none none [] true := by
  constructor <;> rfl

/-- C6 (amended): for every error-mode invocation of the sender
(including every call through `send_error_notification` with a configured
destination), the structured message omits the author block entirely (the
fixed placeholder author identity supplied by `send_error_notification`
is ignored), omits the engagement (likes/retweets) footer and the media
image, and has the raw error text as its body. -/
theorem c6_error_embed_amended :
    (∀ (an au txt url : String) (rc lc : Option Nat) (mu : List String),
        (send_to_discord an au txt url rc lc mu true).author = none ∧
        (send_to_discord an au txt url rc lc mu true).description = txt ∧
        (send_to_discord an au txt url rc lc mu true).imageUrl = none ∧
        (send_to_discord an au txt url rc lc mu true).footerText =
          "Twitter-Discord Bot Error" ∧
        (send_to_discord an au txt url rc lc mu true).title =
          "❌ Bot Error Notification ❌") ∧
    (∀ (msg : String) (dest : Option String) (u : String) (e : Embed),
        send_error_notification msg dest = some (u, e) →
        e.author = none ∧ e.description = msg ∧ e.imageUrl = none ∧
        e.footerText = "Twitter-Discord Bot Error") := by
  constructor
  · intro an au txt url rc lc mu
    exact ⟨rfl, rfl, rfl, rfl, rfl⟩
  · intro msg dest u e h
    cases dest with
    | none => simp [send_error_notification] at h
    | some url =>
      by_cases hu : url = ""
      · simp [send_error_notification, hu] at h
      · simp only [send_error_notification, if_neg hu, Option.some.injEq, Prod.mk.injEq] at h
        rw [← h.2]
        exact ⟨rfl, rfl, rfl, rfl⟩

/-- C6 witness: concrete instance of the amended claim through
`send_error_notification` with a configured destination. -/
theorem c6_error_embed_witness :
    (send_to_discord "Twitter Bot" "bot_error" "boom" "" none none [] true).author = none ∧
    ((send_to_discord "Twitter Bot" "bot_error" "boom" "" none none [] true).description =
      "boom" ∧
     (send_to_discord "Twitter Bot" "bot_error" "boom" "" none none [] true).imageUrl = none ∧
     (send_to_discord "Twitter Bot" "bot_error" "boom" "" none none [] true).footerText =
      "Twitter-Discord Bot Error") :=
  have h := c6_error_embed_amended.2 "boom" (some "https://example.test/hook")
    "https://example.test/hook"
    (send_to_discord "Twitter Bot" "bot_error" "boom" "" none none [] true) rfl
  ⟨h.1, h.2.1, h.2.2.1, h.2.2.2⟩

/-! ### Filter dictionaries (script.py lines 172, 176-181)

`global_filters` and `user_filters` are Python dicts; the merge on lines
176-177 is `copy()` followed by `update()`.  A dict is modelled as an
association list without duplicate keys; `update` writes each key of the
second dict over the first, keeping the position of an existing key. -/

inductive FVal where
  | nat (n : Nat)
  | bool (b : Bool)
  | strs (l : List String)
deriving DecidableEq, Repr

abbrev FDict := List (String × FVal)

/-- Python dict lookup (unique keys: the first match). -/
def dictGet (d : FDict) (k : String) : Option FVal :=
  (d.find? (fun p => p.1 == k)).map Prod.snd

/-- Python `d[k] = v`: replace in place when the key is present,
append otherwise. -/
def dictSet (d : FDict) (k : String) (v : FVal) : FDict :=
  if d.any (fun p => p.1 == k) then
    d.map (fun p => if p.1 = k then (k, v) else p)
  else d ++ [(k, v)]

/-- Python `d.copy()` followed by `d.update(u)`. -/
def dictUpdate (d u : FDict) : FDict :=
  u.foldl (fun acc p => dictSet acc p.1 p.2) d

/-- `user_filters.get("min_followers", 0)` and friends; configuration
values are assumed well-typed as in spec section 6 (a value of the wrong
shape would be returned as-is by Python; it cannot arise from the
recognized configuration keys and falls back to the default here). -/
def getNatD (d : FDict) (k : String) (v : Nat) : Nat :=
  match dictGet d k with
  | some (.nat n) => n
  | _ => v

def getBoolD (d : FDict) (k : String) (v : Bool) : Bool :=
  match dictGet d k with
  | some (.bool b) => b
  | _ => v

def getStrsD (d : FDict) (k : String) (v : List String) : List String :=
  match dictGet d k with
  | some (.strs l) => l
  | _ => v

lemma dictGet_cons (k0 : String) (v0 : FVal) (d : FDict) (k : String) :
    dictGet ((k0, v0) :: d) k = if k0 = k then some v0 else dictGet d k := by
  unfold dictGet
  rw [List.find?_cons]
  by_cases h : k0 = k
  · simp [h]
  · have hb : (k0 == k) = false := beq_eq_false_iff_ne.mpr h
    simp only [hb]
    rw [if_neg h]

lemma dictGet_eq_none_of_not_mem (d : FDict) (k : String)
    (h : k ∉ d.map Prod.fst) : dictGet d k = none := by
  induction d with
  | nil => rfl
  | cons p d ih =>
    rw [show p = (p.1, p.2) from rfl, dictGet_cons]
    have h1 : p.1 ≠ k := by
      intro he
      exact h (by simp [he])
    rw [if_neg h1]
    exact ih (fun hm => h (List.mem_cons_of_mem _ hm))

lemma dictGet_map_set (d : FDict) (k k' : String) (v : FVal) :
    dictGet (d.map (fun p => if p.1 = k then (k, v) else p)) k' =
      if k' = k then (dictGet d k).map (fun _ => v) else dictGet d k' := by
  induction d with
  | nil => by_cases h : k' = k <;> simp [h, dictGet]
  | cons p d ih =>
    obtain ⟨k0, v0⟩ := p
    rw [List.map_cons]
    by_cases h0 : k0 = k
    · subst h0
      by_cases h' : k' = k0
      · subst h'
        simp [dictGet_cons, ih]
      · have h'' : ¬k0 = k' := fun he => h' he.symm
        simp [dictGet_cons, ih, h', h'']
    · by_cases h' : k' = k
      · subst h'
        have h2 : ¬k0 = k' := h0
        simp [dictGet_cons, ih, h0, h2]
      · by_cases h3 : k0 = k'
        · subst h3
          simp [dictGet_cons, ih, h0, h']
        · simp [dictGet_cons, ih, h0, h', h3]

lemma dictGet_dictSet (d : FDict) (k k' : String) (v : FVal) :
    dictGet (dictSet d k v) k' = if k' = k then some v else dictGet d k' := by
  unfold dictSet
  by_cases hany : d.any (fun p => p.1 == k)
  · rw [if_pos hany, dictGet_map_set]
    by_cases hk : k' = k
    · subst hk
      rw [if_pos rfl, if_pos rfl]
      obtain ⟨p, hp, hpk⟩ := List.any_eq_true.mp hany
      have hsome : (d.find? (fun q => q.1 == k')).isSome :=
        List.find?_isSome.mpr ⟨p, hp, hpk⟩
      obtain ⟨q, hq⟩ := Option.isSome_iff_exists.mp hsome
      unfold dictGet
      rw [hq]
      rfl
    · rw [if_neg hk, if_neg hk]
  · rw [if_neg hany]
    unfold dictGet
    rw [List.find?_append]
    by_cases hk : k' = k
    · subst hk
      have hnone : d.find? (fun p => p.1 == k') = none := by
        rw [List.find?_eq_none]
        intro p hp hpk
        exact hany (List.any_eq_true.mpr ⟨p, hp, hpk⟩)
      rw [hnone, if_pos rfl]
      simp [List.find?_cons]
    · have hsingle : ([((k, v) : String × FVal)].find? (fun p => p.1 == k')) = none := by
        have : ¬(k == k') = true := by
          simp only [beq_iff_eq]
          exact fun he => hk he.symm
        simp [List.find?_cons, this]
      rw [hsingle, if_neg hk]
      cases d.find? (fun p => p.1 == k') <;> rfl

/-- Keys of a Python dict are unique. -/
def KeysNodup (d : FDict) : Prop := (d.map Prod.fst).Nodup

instance (d : FDict) : Decidable (KeysNodup d) := by
  unfold KeysNodup; infer_instance

lemma dictGet_dictUpdate (d u : FDict) (k : String) (hu : KeysNodup u) :
    dictGet (dictUpdate d u) k = (dictGet u k).orElse (fun _ => dictGet d k) := by
  induction u generalizing d with
  | nil => rfl
  | cons p u ih =>
    obtain ⟨k0, v0⟩ := p
    have hu' : KeysNodup u := (List.nodup_cons.mp hu).2
    have hk0 : k0 ∉ u.map Prod.fst := (List.nodup_cons.mp hu).1
    show dictGet (dictUpdate (dictSet d k0 v0) u) k = _
    rw [ih (dictSet d k0 v0) hu', dictGet_cons, dictGet_dictSet]
    by_cases hk : k0 = k
    · subst hk
      rw [if_pos rfl, if_pos rfl]
      rw [dictGet_eq_none_of_not_mem u k0 hk0]
      rfl
    · rw [if_neg hk, if_neg (fun he => hk he.symm)]

/-! ### Fetched data (script.py lines 182-193)

A fetched tweet, an expanded author, and an expanded media item carry the
fields the script reads.  Provider identifiers are opaque tokens (spec
section 3: "identifier (opaque string/integer, unique per provider)"), so
`Tweet.id` is the string the script obtains with `str(tweet.id)`;
`createdDate` is the UTC calendar date of `created_at` as an abstract
day number, `none` when `created_at` is absent. -/

structure Tweet where
  id : String
  text : String
  authorId : Nat
  createdDate : Option Nat
  retweetCount : Option Nat
  likeCount : Option Nat
  attachments : Option (List String)
deriving DecidableEq, Repr

structure User where
  id : Nat
  name : String
  username : String
  followersCount : Option Nat
  verified : Bool
deriving DecidableEq, Repr

structure Media where
  mediaKey : String
  mtype : String
  url : Option String
  previewImageUrl : Option String
deriving DecidableEq, Repr

/-- The author index of line 192, a dict comprehension keyed by `id`
(a later duplicate key would win, hence the last match). -/
def lookupUser (users : List User) (i : Nat) : Option User :=
  (users.filter (fun u => u.id == i)).getLast?

/-- The media index of line 193, keyed by `media_key`. -/
def lookupMedia (media : List Media) (k : String) : Option Media :=
  (media.filter (fun m => m.mediaKey == k)).getLast?

/-- The per-attachment branch of lines 221-224: a photo or animated-gif
attachment with a direct URL yields that URL; otherwise a video
attachment with a preview image URL yields that; otherwise nothing. -/
def mediaUrlOf (m : Media) : Option String :=
  if (m.mtype = "photo" ∨ m.mtype = "animated_gif") ∧ m.url.isSome then m.url
  else if m.mtype = "video" ∧ m.previewImageUrl.isSome then m.previewImageUrl
  else none

/-- The media collection loop of lines 217-224: iterate the attachment
keys in order (when the attachments field is present and non-empty,
Python truthiness), look each key up in the media index, and append the
usable URL if any. -/
def collectMedia (media : List Media) (t : Tweet) : List String :=
  match t.attachments with
  | none => []
  | some keys =>
    if keys = [] then []
    else
      keys.foldl (fun acc key =>
        match lookupMedia media key with
        | none => acc
        | some m => acc ++ (mediaUrlOf m).toList) []

/-- Spec-side usable-URL rule, written from the spec's wording: the
direct URL for a photo or animated-image attachment, the preview-image
URL for a video attachment, nothing for any other attachment; an
attachment whose selected field is absent contributes nothing. -/
def specUsableMediaUrl (m : Media) : Option String :=
  if m.mtype = "photo" ∨ m.mtype = "animated_gif" then m.url
  else if m.mtype = "video" then m.previewImageUrl
  else none

lemma mediaUrlOf_eq_spec (m : Media) : mediaUrlOf m = specUsableMediaUrl m := by
  unfold mediaUrlOf specUsableMediaUrl
  by_cases h1 : m.mtype = "photo" ∨ m.mtype = "animated_gif"
  · have hv : ¬m.mtype = "video" := by
      rcases h1 with h | h <;> rw [h] <;> decide
    cases hu : m.url with
    | some u => simp [h1, hu]
    | none => simp [h1, hu, hv]
  · cases hp : m.previewImageUrl with
    | some p => simp [h1]
    | none => simp [h1, hp]

lemma foldl_optionToList_eq_filterMap {α β : Type} (f : α → Option β) (l : List α) :
    ∀ acc : List β, l.foldl (fun acc x => acc ++ (f x).toList) acc = acc ++ l.filterMap f := by
  induction l with
  | nil => simp
  | cons x t ih =>
    intro acc
    rw [List.foldl_cons, ih]
    cases hf : f x <;> simp [hf]

/-! ### Claim C9: media extraction -/

/-- C9: for a surviving item with an attachments list, the collected
media URL list is exactly the in-order `filterMap` of the attachment keys
through the media index and the spec's usable-URL rule: the direct URL of
a photo/animated-image attachment that has one, the preview-image URL of
a video attachment that has one, and nothing for an attachment without a
usable URL (or missing from the index); order is preserved. -/
theorem c9_media_extraction (media : List Media) (t : Tweet) (keys : List String)
    (hatt : t.attachments = some keys) :
    collectMedia media t =
      keys.filterMap (fun k => (lookupMedia media k).bind specUsableMediaUrl) := by
  have hms : mediaUrlOf = specUsableMediaUrl := funext mediaUrlOf_eq_spec
  simp only [collectMedia, hatt]
  by_cases hk : keys = []
  · simp [hk]
  · rw [if_neg hk]
    have hfun : (fun (acc : List String) key =>
        match lookupMedia media key with
        | none => acc
        | some m => acc ++ (mediaUrlOf m).toList) =
        (fun acc key => acc ++ ((lookupMedia media key).bind mediaUrlOf).toList) := by
      funext acc key
      cases h : lookupMedia media key <;> simp [h]
    rw [hfun, foldl_optionToList_eq_filterMap, List.nil_append, hms]

/-- C9 witness: a video attachment with only a preview image yields the
preview URL, a photo attachment with a direct URL yields that URL, and an
attachment with neither is omitted. -/
theorem c9_media_extraction_witness :
    collectMedia
      [⟨"k1", "video", none, some "prev1"⟩,
       ⟨"k2", "photo", some "url2", none⟩,
       ⟨"k3", "photo", none, none⟩]
      { id := "1", text := "x", authorId := 0, createdDate := some 0,
        retweetCount := none, likeCount := none,
        attachments := some ["k1", "k2", "k3"] } =
      (["k1", "k2", "k3"].filterMap (fun k =>
        (lookupMedia
          [⟨"k1", "video", none, some "prev1"⟩,
           ⟨"k2", "photo", some "url2", none⟩,
           ⟨"k3", "photo", none, none⟩] k).bind specUsableMediaUrl)) ∧
    (["k1", "k2", "k3"].filterMap (fun k =>
        (lookupMedia
          [⟨"k1", "video", none, some "prev1"⟩,
           ⟨"k2", "photo", some "url2", none⟩,
           ⟨"k3", "photo", none, none⟩] k).bind specUsableMediaUrl)) =
      ["prev1", "url2"] :=
  ⟨c9_media_extraction _ _ _ rfl, by decide⟩

/-! ### Filter and dispatch pipeline (script.py lines 174-228)

One configured `(query, channel)` pair is processed by iterating the
fetched tweets in provider order.  The run state threads the in-memory
seen set `sent_tweet_ids`, the durable file contents, the list of tweets
dispatched so far, and the per-pair `sent_count`.  Delivery is recorded
as an event trace: a `send` event (the webhook, the tweet id, the embed
that `send_to_discord` builds, and whether the HTTP delivery succeeded,
decided by an environment oracle) followed by a `record` event for the
`save_sent_tweet_id` call.  The oracle only labels the event: every
delivery failure is caught inside `send_to_discord` (lines 122-136), so
control flow never depends on it. -/

inductive Event where
  | send (webhook : Option String) (id : String) (embed : Embed) (delivered : Bool)
  | record (id : String)
deriving DecidableEq, Repr

structure RunState where
  seen : Finset String
  file : List Char
  events : List Event
  sentCount : Nat
  dispatched : List Tweet
deriving DecidableEq

structure ChannelCfg where
  discord_webhook_url : Option String
  user_filters : FDict
deriving DecidableEq, Repr

/-- One configured pair together with the provider's response for it
(`tweets.data` and the author/media expansions). -/
structure PairData where
  query : String
  channel : ChannelCfg
  tweets : List Tweet
  users : List User
  media : List Media
deriving DecidableEq, Repr

/-- The per-pair values computed on lines 175-193 before the item loop. -/
structure PairCtx where
  webhook : Option String
  min_followers : Nat
  only_verified : Bool
  whitelist : List String
  blacklist : List String
  users : List User
  media : List Media
  today : Nat
deriving DecidableEq, Repr

/-- Python `str.lower()` as the script applies it to handles, modelled
at the character-data level for ASCII letters (handles and configured
lists are ASCII tokens; both Python's `lower()` and this rule map A-Z to
a-z and leave other ASCII unchanged). -/
def lowerChar (c : Char) : Char :=
  if 'A' ≤ c ∧ c ≤ 'Z' then Char.ofNat (c.toNat + 32) else c

def lowerStr (s : String) : String := String.mk (s.data.map lowerChar)

/-- Lines 175-181: merge the global filters with the channel's filters
(`copy()` then `update()`), then read the effective values with their
defaults; whitelist and blacklist entries are lowercased. -/
def pairCtx (today : Nat) (global_filters : FDict) (p : PairData) : PairCtx :=
  let user_filters := dictUpdate global_filters p.channel.user_filters
  { webhook := p.channel.discord_webhook_url
    min_followers := getNatD user_filters "min_followers" 0
    only_verified := getBoolD user_filters "only_verified" false
    whitelist := (getStrsD user_filters "whitelist_usernames" []).map lowerStr
    blacklist := (getStrsD user_filters "blacklist_usernames" []).map lowerStr
    users := p.users
    media := p.media
    today := today }

/-- The tweet URL built on line 225. -/
def tweetUrl (username id : String) : String :=
  "https://twitter.com/" ++ username ++ "/status/" ++ id

/-- The embed built by the `send_to_discord` call on line 225.  The
`none` author branch never arises for a dispatched tweet (the loop skips
items whose author is missing from the expansion index). -/
def embedFor (ctx : PairCtx) (t : Tweet) : Embed :=
  match lookupUser ctx.users t.authorId with
  | some author =>
    send_to_discord author.name author.username t.text (tweetUrl author.username t.id)
      (some (t.retweetCount.getD 0)) (some (t.likeCount.getD 0))
      (collectMedia ctx.media t) false
  | none => send_to_discord "" "" t.text (tweetUrl "" t.id) none none [] false

/-- The two observable effects of dispatching one tweet, in program
order: the delivery attempt (line 225) and then the durable record
append (line 226). -/
def dispatchEvents (ctx : PairCtx) (oracle : String → Bool) (t : Tweet) : List Event :=
  [Event.send ctx.webhook t.id (embedFor ctx t) (oracle t.id), Event.record t.id]

/-- One iteration of the item loop, lines 196-228.  The `break` once
`sent_count >= 5` is modelled by the leading guard: after the cap is
reached no later iteration changes the state, which is what `break`
produces.  The skip chain mirrors lines 199-216 in order: recency,
seen set, missing author, whitelist, blacklist, minimum followers,
verified-only. -/
def stepTweet (ctx : PairCtx) (oracle : String → Bool) (s : RunState) (t : Tweet) :
    RunState :=
  if 5 ≤ s.sentCount then s
  else if t.createdDate ≠ some ctx.today then s
  else if t.id ∈ s.seen then s
  else
    match lookupUser ctx.users t.authorId with
    | none => s
    | some author =>
      if ctx.whitelist ≠ [] ∧ lowerStr author.username ∉ ctx.whitelist then s
      else if ctx.blacklist ≠ [] ∧ lowerStr author.username ∈ ctx.blacklist then s
      else if ctx.min_followers ≠ 0 ∧ author.followersCount.getD 0 < ctx.min_followers then s
      else if ctx.only_verified ∧ ¬author.verified then s
      else
        { seen := insert t.id s.seen
          file := save_sent_tweet_id s.file t.id
          events := s.events ++ dispatchEvents ctx oracle t
          sentCount := s.sentCount + 1
          dispatched := s.dispatched ++ [t] }

/-- The conjunction of the per-item checks of lines 199-216 relative to a
given seen set: a tweet passes exactly when the loop would dispatch it
(cap permitting). -/
def eligibleTweet (ctx : PairCtx) (seen : Finset String) (t : Tweet) : Bool :=
  decide (t.createdDate = some ctx.today) && decide (t.id ∉ seen) &&
    (match lookupUser ctx.users t.authorId with
     | none => false
     | some author =>
       decide (¬(ctx.whitelist ≠ [] ∧ lowerStr author.username ∉ ctx.whitelist)) &&
       decide (¬(ctx.blacklist ≠ [] ∧ lowerStr author.username ∈ ctx.blacklist)) &&
       decide (¬(ctx.min_followers ≠ 0 ∧
         author.followersCount.getD 0 < ctx.min_followers)) &&
       decide (¬(ctx.only_verified ∧ ¬author.verified)))

/-- The tweets the item loop dispatches, starting from a given seen set
and a given `sent_count`. -/
def dispatchList (ctx : PairCtx) : Finset String → Nat → List Tweet → List Tweet
  | _, _, [] => []
  | seen, count, t :: ts =>
    if 5 ≤ count then []
    else if eligibleTweet ctx seen t then
      t :: dispatchList ctx (insert t.id seen) (count + 1) ts
    else dispatchList ctx seen count ts

/-- Lines 174-228 for one `(query, channel)` pair: reset `sent_count`
and fold the item loop over the fetched tweets (an empty `tweets.data`
makes the loop a no-op, which is what `continue` on line 191 produces). -/
def processPair (today : Nat) (global_filters : FDict) (oracle : String → Bool)
    (s : RunState) (p : PairData) : RunState :=
  p.tweets.foldl (stepTweet (pairCtx today global_filters p) oracle)
    { s with sentCount := 0 }

/-- `main`'s processing after startup (lines 156-157 and 174-228): load
the seen set from the durable record, then process every configured pair
in order. -/
def runMain (file₀ : List Char) (today : Nat) (global_filters : FDict)
    (pairs : List PairData) (oracle : String → Bool) : RunState :=
  pairs.foldl (processPair today global_filters oracle)
    { seen := load_sent_tweet_ids file₀, file := file₀, events := [],
      sentCount := 0, dispatched := [] }

/-- The tweets one pair dispatches from run state `s`. -/
def pairDispatch (today : Nat) (global_filters : FDict) (s : RunState)
    (p : PairData) : List Tweet :=
  dispatchList (pairCtx today global_filters p) s.seen 0 p.tweets

/-- The ids handed to the Notification Sender, in trace order. -/
def sendIds (evs : List Event) : List String :=
  evs.filterMap (fun e => match e with
    | .send _ id _ _ => some id
    | .record _ => none)

/-- A dispatch block: one delivery attempt followed by its seen-record
commit. -/
def eventBlock (b : Option String × String × Embed × Bool) : List Event :=
  [Event.send b.1 b.2.1 b.2.2.1 b.2.2.2, Event.record b.2.1]

lemma stepTweet_stop {ctx : PairCtx} {o : String → Bool} {s : RunState} {t : Tweet}
    (h : 5 ≤ s.sentCount) : stepTweet ctx o s t = s := by
  unfold stepTweet
  rw [if_pos h]

lemma eligibleTweet_iff (ctx : PairCtx) (seen : Finset String) (t : Tweet) :
    eligibleTweet ctx seen t = true ↔
      t.createdDate = some ctx.today ∧ t.id ∉ seen ∧
      ∃ author, lookupUser ctx.users t.authorId = some author ∧
        ¬(ctx.whitelist ≠ [] ∧ lowerStr author.username ∉ ctx.whitelist) ∧
        ¬(ctx.blacklist ≠ [] ∧ lowerStr author.username ∈ ctx.blacklist) ∧
        ¬(ctx.min_followers ≠ 0 ∧ author.followersCount.getD 0 < ctx.min_followers) ∧
        ¬(ctx.only_verified ∧ ¬author.verified) := by
  unfold eligibleTweet
  cases hu : lookupUser ctx.users t.authorId with
  | none => simp [hu]
  | some author =>
    simp only [hu, Bool.and_eq_true, decide_eq_true_eq, Option.some.injEq, exists_eq_left']
    tauto

lemma stepTweet_skip {ctx : PairCtx} {o : String → Bool} {s : RunState} {t : Tweet}
    (h5 : ¬5 ≤ s.sentCount) (he : eligibleTweet ctx s.seen t = false) :
    stepTweet ctx o s t = s := by
  unfold stepTweet
  rw [if_neg h5]
  by_cases h1 : t.createdDate ≠ some ctx.today
  · rw [if_pos h1]
  · rw [if_neg h1]
    by_cases h2 : t.id ∈ s.seen
    · rw [if_pos h2]
    · rw [if_neg h2]
      cases hu : lookupUser ctx.users t.authorId with
      | none => rfl
      | some author =>
        dsimp only
        by_cases h3 : ctx.whitelist ≠ [] ∧ lowerStr author.username ∉ ctx.whitelist
        · rw [if_pos h3]
        · rw [if_neg h3]
          by_cases h4 : ctx.blacklist ≠ [] ∧ lowerStr author.username ∈ ctx.blacklist
          · rw [if_pos h4]
          · rw [if_neg h4]
            by_cases h6 : ctx.min_followers ≠ 0 ∧
                author.followersCount.getD 0 < ctx.min_followers
            · rw [if_pos h6]
            · rw [if_neg h6]
              by_cases h7 : ctx.only_verified ∧ ¬author.verified
              · rw [if_pos h7]
              · exfalso
                have helig : eligibleTweet ctx s.seen t = true :=
                  (eligibleTweet_iff ctx s.seen t).mpr
                    ⟨not_not.mp h1, h2, author, hu, h3, h4, h6, h7⟩
                rw [he] at helig
                exact Bool.false_ne_true helig

lemma stepTweet_dispatch {ctx : PairCtx} {o : String → Bool} {s : RunState} {t : Tweet}
    (h5 : ¬5 ≤ s.sentCount) (he : eligibleTweet ctx s.seen t = true) :
    stepTweet ctx o s t =
      { seen := insert t.id s.seen
        file := save_sent_tweet_id s.file t.id
        events := s.events ++ dispatchEvents ctx o t
        sentCount := s.sentCount + 1
        dispatched := s.dispatched ++ [t] } := by
  obtain ⟨h1, h2, author, hu, h3, h4, h6, h7⟩ := (eligibleTweet_iff ctx s.seen t).mp he
  unfold stepTweet
  rw [if_neg h5, if_neg (not_not_intro h1), if_neg h2]
  simp only [hu]
  rw [if_neg h3, if_neg h4, if_neg h6, if_neg h7]

lemma dispatchList_of_ge (ctx : PairCtx) (seen : Finset String) (count : Nat)
    (ts : List Tweet) (h : 5 ≤ count) : dispatchList ctx seen count ts = [] := by
  cases ts with
  | nil => rfl
  | cons t ts =>
    simp only [dispatchList]
    rw [if_pos h]

lemma dispatchList_cons (ctx : PairCtx) (seen : Finset String) (count : Nat)
    (t : Tweet) (ts : List Tweet) :
    dispatchList ctx seen count (t :: ts) =
      if 5 ≤ count then []
      else if eligibleTweet ctx seen t then
        t :: dispatchList ctx (insert t.id seen) (count + 1) ts
      else dispatchList ctx seen count ts := by
  simp only [dispatchList]

lemma foldl_stepTweet_eq (ctx : PairCtx) (o : String → Bool) :
    ∀ (ts : List Tweet) (s : RunState),
      ts.foldl (stepTweet ctx o) s =
        { seen := s.seen ∪ ((dispatchList ctx s.seen s.sentCount ts).map Tweet.id).toFinset
          file := ((dispatchList ctx s.seen s.sentCount ts).map Tweet.id).foldl
            save_sent_tweet_id s.file
          events := s.events ++
            (dispatchList ctx s.seen s.sentCount ts).flatMap (dispatchEvents ctx o)
          sentCount := s.sentCount + (dispatchList ctx s.seen s.sentCount ts).length
          dispatched := s.dispatched ++ dispatchList ctx s.seen s.sentCount ts } := by
  intro ts
  induction ts with
  | nil =>
    intro s
    show s = _
    simp [dispatchList]
  | cons t ts ih =>
    intro s
    rw [List.foldl_cons]
    by_cases h5 : 5 ≤ s.sentCount
    · rw [stepTweet_stop h5, ih]
      rw [dispatchList_of_ge ctx s.seen s.sentCount (t :: ts) h5,
        dispatchList_of_ge ctx s.seen s.sentCount ts h5]
    · by_cases he : eligibleTweet ctx s.seen t = true
      · rw [stepTweet_dispatch h5 he, ih]
        dsimp only
        rw [dispatchList_cons, if_neg h5, if_pos he]
        congr 1
        · rw [List.map_cons, List.toFinset_cons, Finset.union_insert, Finset.insert_union]
        · rw [List.flatMap_cons, ← List.append_assoc]
        · rw [List.length_cons]
          omega
        · rw [List.append_assoc, List.singleton_append]
      · have he' : eligibleTweet ctx s.seen t = false := by
          simpa using he
        rw [stepTweet_skip h5 he', ih]
        rw [dispatchList_cons, if_neg h5, if_neg (by rw [he'] ; exact Bool.false_ne_true)]

lemma processPair_eq (today : Nat) (g : FDict) (o : String → Bool) (s : RunState)
    (p : PairData) :
    processPair today g o s p =
      { seen := s.seen ∪ ((pairDispatch today g s p).map Tweet.id).toFinset
        file := ((pairDispatch today g s p).map Tweet.id).foldl save_sent_tweet_id s.file
        events := s.events ++
          (pairDispatch today g s p).flatMap (dispatchEvents (pairCtx today g p) o)
        sentCount := (pairDispatch today g s p).length
        dispatched := s.dispatched ++ pairDispatch today g s p } := by
  unfold processPair pairDispatch
  rw [foldl_stepTweet_eq]
  dsimp only
  rw [Nat.zero_add]

lemma mem_dispatchList (ctx : PairCtx) :
    ∀ (ts : List Tweet) (seen : Finset String) (count : Nat) (t : Tweet),
      t ∈ dispatchList ctx seen count ts →
      t ∈ ts ∧ t.id ∉ seen ∧
        ∃ seen', seen ⊆ seen' ∧ eligibleTweet ctx seen' t = true := by
  intro ts
  induction ts with
  | nil =>
    intro seen count t h
    cases h
  | cons t0 ts ih =>
    intro seen count t h
    rw [dispatchList_cons] at h
    by_cases h5 : 5 ≤ count
    · rw [if_pos h5] at h
      cases h
    · rw [if_neg h5] at h
      by_cases he : eligibleTweet ctx seen t0 = true
      · rw [if_pos he] at h
        rcases List.mem_cons.mp h with rfl | h
        · have hid : t.id ∉ seen := ((eligibleTweet_iff ctx seen t).mp he).2.1
          exact ⟨List.mem_cons_self t ts, hid, seen, Finset.Subset.refl seen, he⟩
        · obtain ⟨hmem, hid, seen', hsub, he'⟩ := ih _ _ _ h
          refine ⟨List.mem_cons_of_mem t0 hmem, ?_, seen', ?_, he'⟩
          · intro hmem2
            exact hid (Finset.mem_insert_of_mem hmem2)
          · exact Finset.Subset.trans (Finset.subset_insert t0.id seen) hsub
      · rw [if_neg he] at h
        obtain ⟨hmem, hid, seen', hsub, he'⟩ := ih _ _ _ h
        exact ⟨List.mem_cons_of_mem t0 hmem, hid, seen', hsub, he'⟩

lemma dispatchList_ids_nodup (ctx : PairCtx) :
    ∀ (ts : List Tweet) (seen : Finset String) (count : Nat),
      ((dispatchList ctx seen count ts).map Tweet.id).Nodup := by
  intro ts
  induction ts with
  | nil => intro seen count; simp [dispatchList]
  | cons t0 ts ih =>
    intro seen count
    rw [dispatchList_cons]
    by_cases h5 : 5 ≤ count
    · rw [if_pos h5]; simp
    · rw [if_neg h5]
      by_cases he : eligibleTweet ctx seen t0 = true
      · rw [if_pos he, List.map_cons, List.nodup_cons]
        refine ⟨?_, ih _ _⟩
        intro hmem
        obtain ⟨t, ht, hid⟩ := List.mem_map.mp hmem
        have := (mem_dispatchList ctx ts (insert t0.id seen) (count + 1) t ht).2.1
        rw [hid] at this
        exact this (Finset.mem_insert_self t0.id seen)
      · rw [if_neg he]
        exact ih _ _

lemma eligibleTweet_insert (ctx : PairCtx) (seen : Finset String) (a : String)
    (t : Tweet) (h : t.id ≠ a) :
    eligibleTweet ctx (insert a seen) t = eligibleTweet ctx seen t := by
  unfold eligibleTweet
  have hd : decide (t.id ∉ insert a seen) = decide (t.id ∉ seen) :=
    decide_eq_decide.mpr (by simp [Finset.mem_insert, h])
  rw [hd]

lemma dispatchList_eq_take_filter (ctx : PairCtx) :
    ∀ (ts : List Tweet) (seen : Finset String) (count : Nat),
      (ts.map Tweet.id).Nodup →
      dispatchList ctx seen count ts =
        (ts.filter (fun t => eligibleTweet ctx seen t)).take (5 - count) := by
  intro ts
  induction ts with
  | nil => intro seen count h; simp [dispatchList]
  | cons t0 ts ih =>
    intro seen count h
    have h' : (t0.id :: ts.map Tweet.id).Nodup := by simpa using h
    have h1 : t0.id ∉ ts.map Tweet.id := (List.nodup_cons.mp h').1
    have h2 : (ts.map Tweet.id).Nodup := (List.nodup_cons.mp h').2
    rw [dispatchList_cons]
    by_cases h5 : 5 ≤ count
    · rw [if_pos h5]
      have h0 : 5 - count = 0 := by omega
      rw [h0, List.take_zero]
    · rw [if_neg h5]
      by_cases he : eligibleTweet ctx seen t0 = true
      · rw [if_pos he, ih _ _ h2]
        have hfilter : ts.filter (fun t => eligibleTweet ctx (insert t0.id seen) t) =
            ts.filter (fun t => eligibleTweet ctx seen t) := by
          apply List.filter_congr
          intro t ht
          have hne : t.id ≠ t0.id := by
            intro he2
            exact h1 (List.mem_map.mpr ⟨t, ht, he2⟩)
          rw [eligibleTweet_insert ctx seen t0.id t hne]
        rw [hfilter, List.filter_cons_of_pos (by simpa using he)]
        have h0 : 5 - count = (5 - (count + 1)) + 1 := by omega
        rw [h0, List.take_succ_cons]
      · rw [if_neg he, ih _ _ h2, List.filter_cons_of_neg (by simpa using he)]

lemma sendIds_append (l₁ l₂ : List Event) :
    sendIds (l₁ ++ l₂) = sendIds l₁ ++ sendIds l₂ := by
  unfold sendIds
  rw [List.filterMap_append]

lemma sendIds_flatMap (ctx : PairCtx) (o : String → Bool) (d : List Tweet) :
    sendIds (d.flatMap (dispatchEvents ctx o)) = d.map Tweet.id := by
  induction d with
  | nil => rfl
  | cons t d ih =>
    rw [List.flatMap_cons, sendIds_append, ih]
    rfl

lemma pairDispatch_not_seen (today : Nat) (g : FDict) (s : RunState) (p : PairData)
    (t : Tweet) (ht : t ∈ pairDispatch today g s p) : t.id ∉ s.seen :=
  (mem_dispatchList (pairCtx today g p) p.tweets s.seen 0 t ht).2.1

lemma run_no_resend (today : Nat) (g : FDict) (o : String → Bool) (pairs : List PairData) :
    ∀ (s : RunState) (id : String), id ∈ s.seen → id ∉ sendIds s.events →
      id ∉ sendIds (pairs.foldl (processPair today g o) s).events := by
  induction pairs with
  | nil =>
    intro s id h1 h2
    simpa using h2
  | cons p pairs ih =>
    intro s id h1 h2
    rw [List.foldl_cons]
    apply ih
    · rw [processPair_eq]
      exact Finset.mem_union_left _ h1
    · rw [processPair_eq]
      show id ∉ sendIds (s.events ++ _)
      rw [sendIds_append, sendIds_flatMap]
      intro hmem
      rcases List.mem_append.mp hmem with h | h
      · exact h2 h
      · obtain ⟨t, ht, hid⟩ := List.mem_map.mp h
        rw [← hid] at h1
        exact pairDispatch_not_seen today g s p t ht h1

lemma run_sendIds_inv (today : Nat) (g : FDict) (o : String → Bool)
    (pairs : List PairData) :
    ∀ (s : RunState), (sendIds s.events).Nodup →
      (∀ i ∈ sendIds s.events, i ∈ s.seen) →
      ((sendIds (pairs.foldl (processPair today g o) s).events).Nodup ∧
        ∀ i ∈ sendIds (pairs.foldl (processPair today g o) s).events,
          i ∈ (pairs.foldl (processPair today g o) s).seen) := by
  induction pairs with
  | nil =>
    intro s h1 h2
    exact ⟨h1, h2⟩
  | cons p pairs ih =>
    intro s h1 h2
    rw [List.foldl_cons]
    apply ih
    · rw [processPair_eq]
      show (sendIds (s.events ++ _)).Nodup
      rw [sendIds_append, sendIds_flatMap, List.nodup_append]
      refine ⟨h1, dispatchList_ids_nodup _ _ _ _, ?_⟩
      intro i hi hmem
      obtain ⟨t, ht, hid⟩ := List.mem_map.mp hmem
      have := pairDispatch_not_seen today g s p t ht
      rw [hid] at this
      exact this (h2 i hi)
    · rw [processPair_eq]
      show ∀ i ∈ sendIds (s.events ++ _), i ∈ s.seen ∪ _
      rw [sendIds_append, sendIds_flatMap]
      intro i hi
      rcases List.mem_append.mp hi with h | h
      · exact Finset.mem_union_left _ (h2 i h)
      · exact Finset.mem_union_right _ (List.mem_toFinset.mpr h)

lemma run_file_inv (today : Nat) (g : FDict) (o : String → Bool) :
    ∀ (pairs : List PairData) (s : RunState),
      (∀ p ∈ pairs, ∀ t ∈ p.tweets, TokenStr t.id) →
      wellFormedFile s.file → s.seen ⊆ load_sent_tweet_ids s.file →
      (wellFormedFile (pairs.foldl (processPair today g o) s).file ∧
        (pairs.foldl (processPair today g o) s).seen ⊆
          load_sent_tweet_ids (pairs.foldl (processPair today g o) s).file) := by
  intro pairs
  induction pairs with
  | nil =>
    intro s _ hwf hsub
    exact ⟨hwf, hsub⟩
  | cons p pairs ih =>
    intro s htok hwf hsub
    rw [List.foldl_cons]
    have htok' : ∀ id ∈ (pairDispatch today g s p).map Tweet.id, TokenStr id := by
      intro id hid
      obtain ⟨t, ht, hid'⟩ := List.mem_map.mp hid
      have hmem : t ∈ p.tweets :=
        (mem_dispatchList (pairCtx today g p) p.tweets s.seen 0 t ht).1
      rw [← hid']
      exact htok p (List.mem_cons_self p pairs) t hmem
    obtain ⟨hload, hwf'⟩ := load_foldl_save ((pairDispatch today g s p).map Tweet.id)
      s.file hwf htok'
    apply ih
    · intro q hq t ht
      exact htok q (List.mem_cons_of_mem p hq) t ht
    · rw [processPair_eq]
      exact hwf'
    · rw [processPair_eq]
      show s.seen ∪ _ ⊆ load_sent_tweet_ids (((pairDispatch today g s p).map Tweet.id).foldl
        save_sent_tweet_id s.file)
      rw [hload]
      exact Finset.union_subset_union hsub (Finset.Subset.refl _)

lemma run_oracle_invariant (today : Nat) (g : FDict) (o₁ o₂ : String → Bool) :
    ∀ (pairs : List PairData) (t₁ t₂ : RunState),
      t₁.seen = t₂.seen → t₁.file = t₂.file → t₁.dispatched = t₂.dispatched →
      t₁.sentCount = t₂.sentCount →
      ((pairs.foldl (processPair today g o₁) t₁).seen =
        (pairs.foldl (processPair today g o₂) t₂).seen ∧
       (pairs.foldl (processPair today g o₁) t₁).file =
        (pairs.foldl (processPair today g o₂) t₂).file ∧
       (pairs.foldl (processPair today g o₁) t₁).dispatched =
        (pairs.foldl (processPair today g o₂) t₂).dispatched ∧
       (pairs.foldl (processPair today g o₁) t₁).sentCount =
        (pairs.foldl (processPair today g o₂) t₂).sentCount) := by
  intro pairs
  induction pairs with
  | nil =>
    intro t₁ t₂ h1 h2 h3 h4
    exact ⟨h1, h2, h3, h4⟩
  | cons q qs ihq =>
    intro t₁ t₂ h1 h2 h3 h4
    rw [List.foldl_cons, List.foldl_cons]
    apply ihq
    · rw [processPair_eq, processPair_eq]
      dsimp only
      unfold pairDispatch
      rw [h1]
    · rw [processPair_eq, processPair_eq]
      dsimp only
      unfold pairDispatch
      rw [h1, h2]
    · rw [processPair_eq, processPair_eq]
      dsimp only
      unfold pairDispatch
      rw [h1, h3]
    · rw [processPair_eq, processPair_eq]
      dsimp only
      unfold pairDispatch
      rw [h1]

lemma run_events_blocks (today : Nat) (g : FDict) (o : String → Bool)
    (pairs : List PairData) :
    ∀ (s : RunState),
      (∃ blocks : List (Option String × String × Embed × Bool),
        s.events = blocks.flatMap eventBlock) →
      ∃ blocks : List (Option String × String × Embed × Bool),
        (pairs.foldl (processPair today g o) s).events = blocks.flatMap eventBlock := by
  induction pairs with
  | nil =>
    intro s h
    exact h
  | cons p pairs ih =>
    intro s h
    rw [List.foldl_cons]
    apply ih
    obtain ⟨blocks, hb⟩ := h
    refine ⟨blocks ++ (pairDispatch today g s p).map
      (fun t => ((pairCtx today g p).webhook, t.id, embedFor (pairCtx today g p) t,
        o t.id)), ?_⟩
    rw [processPair_eq]
    show s.events ++ _ = _
    rw [hb, List.flatMap_append]
    congr 1
    induction pairDispatch today g s p with
    | nil => rfl
    | cons t d ihd =>
      rw [List.map_cons, List.flatMap_cons, List.flatMap_cons, ihd]
      rfl

lemma not_mem_pairDispatch_ids (today : Nat) (g : FDict) (s : RunState) (p : PairData)
    (t : Tweet) (hnodup : (p.tweets.map Tweet.id).Nodup) (ht : t ∈ p.tweets)
    (htd : t ∉ pairDispatch today g s p) :
    t.id ∉ (pairDispatch today g s p).map Tweet.id := by
  intro hmem
  obtain ⟨t', ht', hid⟩ := List.mem_map.mp hmem
  have hmem' : t' ∈ p.tweets :=
    (mem_dispatchList (pairCtx today g p) p.tweets s.seen 0 t' ht').1
  have heq : t' = t := List.inj_on_of_nodup_map hnodup hmem' ht hid
  rw [heq] at ht'
  exact htd ht'

/-! ### Claim C2: seen-set idempotence across and within runs -/

/-- C2: an identifier in the in-memory seen set when an item is examined
is never passed to the Notification Sender.  Concretely: (1) an
identifier loaded from the durable record at startup never appears among
the send events of the run; (2) no identifier is sent twice within a run
(an identifier added earlier in the run blocks later items); (3) an
identifier sent (hence recorded) by a run never appears among the send
events of a later run that reloads the record the first run left behind.
The hypotheses say the durable record is one the script itself maintains
(empty or newline-terminated) and that provider identifiers are tokens
(non-empty, no whitespace), which the `str()` image of a numeric tweet id
always is. -/
theorem c2_seen_idempotence
    (file₀ : List Char) (today today' : Nat) (g g' : FDict)
    (pairs pairs' : List PairData) (o o' : String → Bool)
    (hwf : wellFormedFile file₀)
    (htok : ∀ p ∈ pairs, ∀ t ∈ p.tweets, TokenStr t.id) :
    (∀ id ∈ load_sent_tweet_ids file₀,
        id ∉ sendIds (runMain file₀ today g pairs o).events) ∧
    (sendIds (runMain file₀ today g pairs o).events).Nodup ∧
    (∀ id ∈ sendIds (runMain file₀ today g pairs o).events,
        id ∉ sendIds
          (runMain (runMain file₀ today g pairs o).file today' g' pairs' o').events) := by
  unfold runMain
  refine ⟨?_, ?_, ?_⟩
  · intro id hid
    exact run_no_resend today g o pairs _ id hid (by simp [sendIds])
  · exact (run_sendIds_inv today g o pairs _ (by simp [sendIds])
      (by simp [sendIds])).1
  · intro id hid
    have hseen : id ∈ (pairs.foldl (processPair today g o)
        { seen := load_sent_tweet_ids file₀, file := file₀, events := [],
          sentCount := 0, dispatched := [] }).seen :=
      (run_sendIds_inv today g o pairs _ (by simp [sendIds])
        (by simp [sendIds])).2 id hid
    have hfile := run_file_inv today g o pairs
      { seen := load_sent_tweet_ids file₀, file := file₀, events := [],
        sentCount := 0, dispatched := [] }
      htok hwf (Finset.Subset.refl _)
    have hload : id ∈ load_sent_tweet_ids (pairs.foldl (processPair today g o)
        { seen := load_sent_tweet_ids file₀, file := file₀, events := [],
          sentCount := 0, dispatched := [] }).file := hfile.2 hseen
    exact run_no_resend today' g' o' pairs' _ id hload (by simp [sendIds])

/-- The concrete pair used by the C2 witness: one tweet with id `5`
whose author passes every filter. -/
def c2Pair : PairData :=
  ⟨"q", ⟨some "h", []⟩, [⟨"5", "x", 1, some 0, none, none, none⟩],
    [⟨1, "n", "u", some 10, true⟩], []⟩

/-- C2 witness: a record containing `5`, a pair offering the same tweet
`5` again; the run sends nothing for it. -/
theorem c2_seen_idempotence_witness :
    wellFormedFile ("5\n".data) ∧
    "5" ∈ load_sent_tweet_ids ("5\n".data) ∧
    "5" ∉ sendIds (runMain ("5\n".data) 0 [] [c2Pair] (fun _ => true)).events :=
  ⟨by decide, by decide,
    (c2_seen_idempotence ("5\n".data) 0 0 [] [] [c2Pair] [] (fun _ => true)
      (fun _ => true) (by decide) (by decide)).1 "5" (by decide)⟩

/-! ### Claim C3: per-pair dispatch cap of five -/

/-- C3: for one `(query, channel)` pair offering at least 10 eligible
items (unseen, filter-passing, created on the current UTC date), the loop
dispatches and records exactly the first 5 eligible items in provider
order, and every other item is untouched: not dispatched, and absent from
both the in-memory set and the durable record unless it was already
there.  Identifiers are pairwise distinct ("unique per provider", spec
section 3) and tokens; the record is script-maintained. -/
theorem c3_dispatch_cap
    (today : Nat) (g : FDict) (o : String → Bool) (s : RunState) (p : PairData)
    (hdisp : s.dispatched = [])
    (hnodup : (p.tweets.map Tweet.id).Nodup)
    (hwf : wellFormedFile s.file)
    (htok : ∀ t ∈ p.tweets, TokenStr t.id)
    (h10 : 10 ≤ (p.tweets.filter
        (fun t => eligibleTweet (pairCtx today g p) s.seen t)).length) :
    (processPair today g o s p).dispatched =
      (p.tweets.filter (fun t => eligibleTweet (pairCtx today g p) s.seen t)).take 5 ∧
    ((p.tweets.filter (fun t => eligibleTweet (pairCtx today g p) s.seen t)).take 5).length
      = 5 ∧
    (processPair today g o s p).seen = s.seen ∪
      (((p.tweets.filter (fun t => eligibleTweet (pairCtx today g p) s.seen t)).take 5).map
        Tweet.id).toFinset ∧
    load_sent_tweet_ids (processPair today g o s p).file =
      load_sent_tweet_ids s.file ∪
      (((p.tweets.filter (fun t => eligibleTweet (pairCtx today g p) s.seen t)).take 5).map
        Tweet.id).toFinset ∧
    (∀ t ∈ p.tweets,
      t ∉ (p.tweets.filter (fun t => eligibleTweet (pairCtx today g p) s.seen t)).take 5 →
      (t.id ∈ (processPair today g o s p).seen ↔ t.id ∈ s.seen) ∧
      (t.id ∈ load_sent_tweet_ids (processPair today g o s p).file ↔
        t.id ∈ load_sent_tweet_ids s.file)) := by
  have htake : pairDispatch today g s p =
      (p.tweets.filter (fun t => eligibleTweet (pairCtx today g p) s.seen t)).take 5 :=
    dispatchList_eq_take_filter (pairCtx today g p) p.tweets s.seen 0 hnodup
  have htok' : ∀ id ∈ (pairDispatch today g s p).map Tweet.id, TokenStr id := by
    intro id hid
    obtain ⟨t, ht, hid'⟩ := List.mem_map.mp hid
    rw [← hid']
    exact htok t (mem_dispatchList (pairCtx today g p) p.tweets s.seen 0 t ht).1
  have hload := (load_foldl_save ((pairDispatch today g s p).map Tweet.id) s.file
    hwf htok').1
  refine ⟨?_, ?_, ?_, ?_, ?_⟩
  · rw [processPair_eq]
    show s.dispatched ++ _ = _
    rw [hdisp, List.nil_append, htake]
  · rw [List.length_take]
    omega
  · rw [processPair_eq]
    show s.seen ∪ _ = _
    rw [htake]
  · rw [processPair_eq]
    show load_sent_tweet_ids (((pairDispatch today g s p).map Tweet.id).foldl
      save_sent_tweet_id s.file) = _
    rw [hload, htake]
  · intro t ht htd
    rw [← htake] at htd
    have hid : t.id ∉ (pairDispatch today g s p).map Tweet.id :=
      not_mem_pairDispatch_ids today g s p t hnodup ht htd
    constructor
    · rw [processPair_eq]
      show t.id ∈ s.seen ∪ _ ↔ _
      simp only [Finset.mem_union, List.mem_toFinset]
      exact ⟨fun h => h.elim id (fun h => absurd h hid), Or.inl⟩
    · rw [processPair_eq]
      show t.id ∈ load_sent_tweet_ids (((pairDispatch today g s p).map Tweet.id).foldl
        save_sent_tweet_id s.file) ↔ _
      rw [hload]
      simp only [Finset.mem_union, List.mem_toFinset]
      exact ⟨fun h => h.elim id (fun h => absurd h hid), Or.inl⟩

/-! ### Claim C5: same-day recency filter -/

/-- C5: a fetched item whose creation date is not the current UTC date
(or whose creation timestamp is absent) is never dispatched and its
identifier is never recorded, in memory or durably, regardless of every
other filter. -/
theorem c5_recency_filter
    (today : Nat) (g : FDict) (o : String → Bool) (s : RunState) (p : PairData)
    (t : Tweet)
    (hdisp : s.dispatched = [])
    (ht : t ∈ p.tweets)
    (hnodup : (p.tweets.map Tweet.id).Nodup)
    (hdate : t.createdDate ≠ some today) :
    t ∉ (processPair today g o s p).dispatched ∧
    (t.id ∈ (processPair today g o s p).seen ↔ t.id ∈ s.seen) ∧
    (wellFormedFile s.file → (∀ u ∈ p.tweets, TokenStr u.id) →
      (t.id ∈ load_sent_tweet_ids (processPair today g o s p).file ↔
        t.id ∈ load_sent_tweet_ids s.file)) := by
  have htd : t ∉ pairDispatch today g s p := by
    intro htd
    obtain ⟨-, -, seen', -, helig⟩ :=
      mem_dispatchList (pairCtx today g p) p.tweets s.seen 0 t htd
    exact hdate ((eligibleTweet_iff (pairCtx today g p) seen' t).mp helig).1
  have hid : t.id ∉ (pairDispatch today g s p).map Tweet.id :=
    not_mem_pairDispatch_ids today g s p t hnodup ht htd
  refine ⟨?_, ?_, ?_⟩
  · rw [processPair_eq]
    show t ∉ s.dispatched ++ _
    rw [hdisp, List.nil_append]
    exact htd
  · rw [processPair_eq]
    show t.id ∈ s.seen ∪ _ ↔ _
    simp only [Finset.mem_union, List.mem_toFinset]
    exact ⟨fun h => h.elim id (fun h => absurd h hid), Or.inl⟩
  · intro hwf htok
    have htok' : ∀ id ∈ (pairDispatch today g s p).map Tweet.id, TokenStr id := by
      intro id hid'
      obtain ⟨u, hu, hid''⟩ := List.mem_map.mp hid'
      rw [← hid'']
      exact htok u (mem_dispatchList (pairCtx today g p) p.tweets s.seen 0 u hu).1
    have hload := (load_foldl_save ((pairDispatch today g s p).map Tweet.id) s.file
      hwf htok').1
    rw [processPair_eq]
    show t.id ∈ load_sent_tweet_ids (((pairDispatch today g s p).map Tweet.id).foldl
      save_sent_tweet_id s.file) ↔ _
    rw [hload]
    simp only [Finset.mem_union, List.mem_toFinset]
    exact ⟨fun h => h.elim id (fun h => absurd h hid), Or.inl⟩

/-! ### Claim C8: filter precedence -/

/-- C8: the effective filter set is the global defaults overridden
key-by-key by the channel's filters (Python `copy()` then `update()`);
with global `min_followers = 100` and channel `min_followers = 500`, the
effective minimum is 500, and an item by an author with 300 followers is
not dispatched for that channel. -/
theorem c8_filter_precedence
    (today : Nat) (g : FDict) (o : String → Bool) (s : RunState) (p : PairData)
    (t : Tweet) (author : User)
    (hdisp : s.dispatched = [])
    (hkeys : KeysNodup p.channel.user_filters)
    (hc : dictGet p.channel.user_filters "min_followers" = some (FVal.nat 500))
    (ht : t ∈ p.tweets)
    (hauthor : lookupUser p.users t.authorId = some author)
    (hf : author.followersCount = some 300) :
    (∀ k, dictGet (dictUpdate g p.channel.user_filters) k =
      (dictGet p.channel.user_filters k).orElse (fun _ => dictGet g k)) ∧
    (pairCtx today g p).min_followers = 500 ∧
    t ∉ (processPair today g o s p).dispatched := by
  have hminf : (pairCtx today g p).min_followers = 500 := by
    show getNatD (dictUpdate g p.channel.user_filters) "min_followers" 0 = 500
    unfold getNatD
    rw [dictGet_dictUpdate g p.channel.user_filters "min_followers" hkeys, hc]
    rfl
  refine ⟨fun k => dictGet_dictUpdate g p.channel.user_filters k hkeys, hminf, ?_⟩
  rw [processPair_eq]
  show t ∉ s.dispatched ++ _
  rw [hdisp, List.nil_append]
  intro htd
  obtain ⟨-, -, seen', -, helig⟩ :=
    mem_dispatchList (pairCtx today g p) p.tweets s.seen 0 t htd
  obtain ⟨-, -, a, ha, -, -, h6, -⟩ :=
    (eligibleTweet_iff (pairCtx today g p) seen' t).mp helig
  have haa : a = author := by
    have : lookupUser p.users t.authorId = some a := ha
    rw [hauthor] at this
    exact (Option.some.inj this).symm
  apply h6
  constructor
  · rw [hminf]
    omega
  · rw [haa, hf, hminf]
    decide

/-! ### Claim C10: blacklist check runs after (and despite) the whitelist -/

/-- C10: with both effective lists non-empty, an author whose lowercase
handle appears in both the whitelist and the blacklist is excluded: the
whitelist check (line 209) does not skip the item, but the blacklist
check (line 211) does, so the item is never dispatched. -/
theorem c10_blacklist_overrides_whitelist
    (today : Nat) (g : FDict) (o : String → Bool) (s : RunState) (p : PairData)
    (t : Tweet) (author : User)
    (hdisp : s.dispatched = [])
    (ht : t ∈ p.tweets)
    (hauthor : lookupUser p.users t.authorId = some author)
    (hwl : (pairCtx today g p).whitelist ≠ [])
    (hbl : (pairCtx today g p).blacklist ≠ [])
    (hinw : lowerStr author.username ∈ (pairCtx today g p).whitelist)
    (hinb : lowerStr author.username ∈ (pairCtx today g p).blacklist) :
    t ∉ (processPair today g o s p).dispatched := by
  rw [processPair_eq]
  show t ∉ s.dispatched ++ _
  rw [hdisp, List.nil_append]
  intro htd
  obtain ⟨-, -, seen', -, helig⟩ :=
    mem_dispatchList (pairCtx today g p) p.tweets s.seen 0 t htd
  obtain ⟨-, -, a, ha, -, h4, -, -⟩ :=
    (eligibleTweet_iff (pairCtx today g p) seen' t).mp helig
  have haa : a = author := by
    have : lookupUser p.users t.authorId = some a := ha
    rw [hauthor] at this
    exact (Option.some.inj this).symm
  rw [haa] at h4
  exact h4 ⟨hbl, hinb⟩

/-! ### Claim C4: delivery attempt precedes the seen-set commit, and a
delivery failure changes nothing -/

/-- C4: the run's event trace is a concatenation of dispatch blocks, each
a delivery attempt immediately followed by the seen-record commit for the
same identifier — so for every dispatched item the delivery attempt
happens before the commit; and the seen set, file, and dispatched list of
the run are identical for any two delivery-outcome oracles (in particular
the all-failures oracle), so a failure never prevents the commit, and a
failed delivery is never retried (its identifier is committed exactly as
on success). -/
theorem c4_delivery_before_commit
    (file₀ : List Char) (today : Nat) (g : FDict) (pairs : List PairData)
    (o₁ o₂ : String → Bool) :
    (runMain file₀ today g pairs o₁).seen = (runMain file₀ today g pairs o₂).seen ∧
    (runMain file₀ today g pairs o₁).file = (runMain file₀ today g pairs o₂).file ∧
    (runMain file₀ today g pairs o₁).dispatched =
      (runMain file₀ today g pairs o₂).dispatched ∧
    ∃ blocks : List (Option String × String × Embed × Bool),
      (runMain file₀ today g pairs o₁).events = blocks.flatMap eventBlock := by
  unfold runMain
  obtain ⟨h1, h2, h3, -⟩ := run_oracle_invariant today g o₁ o₂ pairs
    { seen := load_sent_tweet_ids file₀, file := file₀, events := [],
      sentCount := 0, dispatched := [] }
    { seen := load_sent_tweet_ids file₀, file := file₀, events := [],
      sentCount := 0, dispatched := [] } rfl rfl rfl rfl
  exact ⟨h1, h2, h3, run_events_blocks today g o₁ pairs _ ⟨[], rfl⟩⟩

/-! ### Concrete witnesses for the pipeline claims -/

/-- A fresh run state: empty seen set, empty durable record, no events. -/
def initState : RunState := ⟨∅, [], [], 0, []⟩

/-- Ten same-day tweets with distinct ids by one filter-passing author. -/
def c3Pair : PairData :=
  ⟨"q", ⟨some "h", []⟩,
    (List.range 10).map (fun i => ⟨toString i, "x", 1, some 0, none, none, none⟩),
    [⟨1, "n", "u", some 10, true⟩], []⟩

/-- C3 witness: with ten eligible items, exactly the first five are
dispatched. -/
theorem c3_dispatch_cap_witness :
    10 ≤ (c3Pair.tweets.filter
      (fun t => eligibleTweet (pairCtx 0 [] c3Pair) initState.seen t)).length ∧
    (processPair 0 [] (fun _ => true) initState c3Pair).dispatched =
      (c3Pair.tweets.filter
        (fun t => eligibleTweet (pairCtx 0 [] c3Pair) initState.seen t)).take 5 ∧
    ((c3Pair.tweets.filter
      (fun t => eligibleTweet (pairCtx 0 [] c3Pair) initState.seen t)).take 5).length = 5 :=
  have h := c3_dispatch_cap 0 [] (fun _ => true) initState c3Pair rfl (by decide)
    (Or.inl rfl) (by decide) (by decide)
  ⟨by decide, h.1, h.2.1⟩

/-- A tweet created on day 5, examined on day 7. -/
def c5Tweet : Tweet := ⟨"9", "old", 1, some 5, none, none, none⟩

def c5Pair : PairData :=
  ⟨"q", ⟨some "h", []⟩, [c5Tweet], [⟨1, "n", "u", some 10, true⟩], []⟩

/-- C5 witness: yesterday's tweet is neither dispatched nor recorded. -/
theorem c5_recency_filter_witness :
    c5Tweet ∉ (processPair 7 [] (fun _ => true) initState c5Pair).dispatched ∧
    (c5Tweet.id ∈ (processPair 7 [] (fun _ => true) initState c5Pair).seen ↔
      c5Tweet.id ∈ initState.seen) :=
  have h := c5_recency_filter 7 [] (fun _ => true) initState c5Pair c5Tweet rfl
    (by decide) (by decide) (by decide)
  ⟨h.1, h.2.1⟩

def c8Tweet : Tweet := ⟨"1", "x", 1, some 0, none, none, none⟩

/-- Channel overriding `min_followers` to 500, author with 300
followers. -/
def c8Pair : PairData :=
  ⟨"q", ⟨some "h", [("min_followers", FVal.nat 500)]⟩, [c8Tweet],
    [⟨1, "n", "u", some 300, true⟩], []⟩

/-- C8 witness: channel 500 overrides global 100; 300 followers is
excluded. -/
theorem c8_filter_precedence_witness :
    (pairCtx 0 [("min_followers", FVal.nat 100)] c8Pair).min_followers = 500 ∧
    c8Tweet ∉ (processPair 0 [("min_followers", FVal.nat 100)] (fun _ => true)
      initState c8Pair).dispatched :=
  have h := c8_filter_precedence 0 [("min_followers", FVal.nat 100)] (fun _ => true)
    initState c8Pair c8Tweet ⟨1, "n", "u", some 300, true⟩ rfl (by decide) (by decide)
    (by decide) (by decide) rfl
  ⟨h.2.1, h.2.2⟩

def c10Tweet : Tweet := ⟨"1", "x", 1, some 0, none, none, none⟩

/-- Both lists non-empty and the author's lowercase handle in both. -/
def c10Pair : PairData :=
  ⟨"q", ⟨some "h", [("whitelist_usernames", FVal.strs ["U"]),
    ("blacklist_usernames", FVal.strs ["u"])]⟩, [c10Tweet],
    [⟨1, "n", "U", some 10, true⟩], []⟩

/-- C10 witness: a handle on both lists is excluded. -/
theorem c10_blacklist_overrides_whitelist_witness :
    "u" ∈ (pairCtx 0 [] c10Pair).whitelist ∧
    "u" ∈ (pairCtx 0 [] c10Pair).blacklist ∧
    c10Tweet ∉ (processPair 0 [] (fun _ => true) initState c10Pair).dispatched :=
  ⟨by decide, by decide,
    c10_blacklist_overrides_whitelist 0 [] (fun _ => true) initState c10Pair c10Tweet
      ⟨1, "n", "U", some 10, true⟩ rfl (by decide) (by decide) (by decide) (by decide)
      (by decide) (by decide)⟩

end X2Discord
